import Mathlib

/-!
Shallow embedding of `src/downloader.py`: a bounded-concurrency HTTP
downloader that mirrors a repository file tree and hashes each downloaded
file with SHA-256.

The embedding models:
* the POSIX path operations the code uses (`os.path.join`, `os.path.dirname`,
  `os.path.relpath`, `os.makedirs`);
* the filesystem as an association list from paths to file data;
* `download_file`, `create_download_tasks`, `get_relative_paths`,
  `calculate_sha256` and the digest pass of `main`;
* `asyncio.gather`'s fail-fast result semantics;
* the `asyncio.Semaphore(3)` discipline of `download_file` as a small-step
  transition system over task phases.
-/

namespace Downloader

/-! ### POSIX path operations (`posixpath.join`, `dirname`, etc.) -/

/-- Prefix test on character lists (`str.startswith`). -/
def charsStartWith : List Char → List Char → Bool
  | _, [] => true
  | [], _ :: _ => false
  | c :: cs, d :: ds => c = d && charsStartWith cs ds

/-- `s.startswith(pre)`. -/
def sStartsWith (s pre : String) : Bool := charsStartWith s.toList pre.toList

/-- `s.endswith(suf)`. -/
def sEndsWith (s suf : String) : Bool :=
  charsStartWith s.toList.reverse suf.toList.reverse

/-- Split a character list at every occurrence of `c` (`s.split(c)` for a
one-character separator). -/
def splitOnChar (c : Char) : List Char → List (List Char)
  | [] => [[]]
  | d :: ds =>
    let rest := splitOnChar c ds
    if d = c then [] :: rest
    else
      match rest with
      | r :: rs => (d :: r) :: rs
      | [] => [[d]]

/-- `p.split("/")`. -/
def splitSlash (p : String) : List String :=
  (splitOnChar '/' p.toList).map String.mk

/-- `os.path.join(a, b)` for POSIX, two arguments: if `b` is absolute the
result is `b`; otherwise `b` is appended, inserting a slash unless `a` is
empty or already ends with one. -/
def pjoin (a b : String) : String :=
  if sStartsWith b "/" then b
  else if a = "" ∨ sEndsWith a "/" then a ++ b
  else a ++ "/" ++ b

/-- `os.path.join` over a nonempty list of components, folding `pjoin`
from the first component, as Python does for `join(a, *p)`. -/
def pjoinList (x : String) (rest : List String) : String :=
  rest.foldl pjoin x

/-- Index one past the last slash of a character list (`p.rfind(sep) + 1`);
`0` when there is no slash. -/
def lastSlashEnd (cs : List Char) : Nat :=
  (cs.reverse.dropWhile (fun c => c ≠ '/')).length

/-- Remove trailing slashes (`head.rstrip(sep)`). -/
def rstripSlash (cs : List Char) : List Char :=
  (cs.reverse.dropWhile (fun c => c = '/')).reverse

/-- `posixpath.dirname`: everything up to the last slash, with trailing
slashes then stripped unless the prefix is entirely slashes. -/
def dirname (p : String) : String :=
  let cs := p.toList
  let head := cs.take (lastSlashEnd cs)
  if head ≠ [] ∧ head.any (fun c => c ≠ '/') then
    String.mk (rstripSlash head)
  else
    String.mk head

/-- `posixpath.isabs`. -/
def isabs (p : String) : Bool := sStartsWith p "/"

/-- The nonempty components of a path (`[x for x in p.split(sep) if x]`). -/
def splitComponents (p : String) : List String :=
  (splitSlash p).filter (fun s => s ≠ "")

/-- One pass of `posixpath.normpath`'s component loop: drop empty and `"."`
components, resolve `".."` against a previous component when allowed. -/
def normComps (initialSlashes : Bool) : List String → List String → List String
  | acc, [] => acc.reverse
  | acc, comp :: rest =>
    if comp = "" ∨ comp = "." then
      normComps initialSlashes acc rest
    else if comp ≠ ".." ∨ ((¬ initialSlashes) ∧ acc = []) ∨
        (acc ≠ [] ∧ acc.headD "" = "..") then
      normComps initialSlashes (comp :: acc) rest
    else if acc ≠ [] then
      normComps initialSlashes acc.tail rest
    else
      normComps initialSlashes acc rest

/-- `posixpath.normpath`. -/
def normpath (p : String) : String :=
  if p = "" then "." else
  let initialSlashes : Nat :=
    if sStartsWith p "/" then
      if sStartsWith p "//" ∧ ¬ sStartsWith p "///" then 2 else 1
    else 0
  let comps := normComps (initialSlashes ≠ 0) [] (splitSlash p)
  let body := String.intercalate "/" comps
  let out := String.mk (List.replicate initialSlashes '/') ++ body
  if out = "" then "." else out

/-- `posixpath.abspath` with the working directory passed explicitly. -/
def abspath (cwd p : String) : String :=
  if isabs p then normpath p else normpath (pjoin cwd p)

/-- Length of the longest common prefix of two component lists
(`genericpath.commonprefix`). -/
def commonPrefixLen : List String → List String → Nat
  | x :: xs, y :: ys => if x = y then commonPrefixLen xs ys + 1 else 0
  | _, _ => 0

/-- `posixpath.relpath(path, start)` with the working directory passed
explicitly: both paths are made absolute, split into components, and the
result climbs out of `start`'s unshared components and descends into
`path`'s. -/
def relpath (cwd path start : String) : String :=
  let start_list := splitComponents (abspath cwd start)
  let path_list := splitComponents (abspath cwd path)
  let i := commonPrefixLen start_list path_list
  let rel_list := List.replicate (start_list.length - i) ".." ++ path_list.drop i
  match rel_list with
  | [] => "."
  | x :: rest => pjoinList x rest

/-! ### Filesystem model -/

/-- The contents of one file, plus metadata the digest code never reads. -/
structure FileData where
  bytes : List Nat
  mtime : Nat
  perms : Nat
  deriving Repr, DecidableEq

/-- A filesystem: files as an association list from absolute path to data,
plus the set of directories known to exist. -/
structure FS where
  files : List (String × FileData)
  dirs : List String
  deriving Repr, DecidableEq

/-- Look a file up by path. -/
def FS.lookup (fs : FS) (p : String) : Option FileData :=
  (fs.files.find? (fun pd => pd.1 = p)).map Prod.snd

/-- `os.makedirs(name, exist_ok=True)`: record `name` and every ancestor
produced by repeatedly taking `dirname`, stopping at the root or after
`fuel` steps. -/
def mkdirChain (name : String) : Nat → List String
  | 0 => []
  | fuel + 1 =>
    if name = "" ∨ name = "/" then []
    else name :: mkdirChain (dirname name) fuel

/-- Apply `os.makedirs(name, exist_ok=True)` to the filesystem. -/
def makedirs (name : String) (fs : FS) : FS :=
  { fs with dirs := mkdirChain name (name.length + 1) ++ fs.dirs }

/-- Write `bytes` at `dest` (`open(dest, 'wb')` + write): replace the file
in place when the path exists, append it otherwise. -/
def writeFile (dest : String) (bytes : List Nat) (fs : FS) : FS :=
  if dest ∈ fs.files.map Prod.fst then
    let updated := fs.files.map
      (fun pd => if pd.1 = dest then (dest, ⟨bytes, 0, 0⟩) else pd)
    { fs with files := updated }
  else
    { fs with files := fs.files ++ [(dest, ⟨bytes, 0, 0⟩)] }

/-! ### `download_file` -/

/-- The reference status check: `HTTP_STATUS_OK = 200`. -/
def HTTP_STATUS_OK : Nat := 200

/-- An HTTP response as `download_file` observes it: a status code and the
body returned by `response.read()`. -/
structure Response where
  status : Nat
  body : List Nat
  deriving Repr, DecidableEq

/-- The error raised on a non-200 status
(`aiohttp.ClientResponseError(status=..., message=...)`). -/
structure ClientResponseError where
  status : Nat
  message : String
  deriving Repr, DecidableEq

/-- What one `download_file` call did: the URLs it requested, the
filesystem after the call, and whether it returned or raised. -/
structure DLOutcome where
  trace : List String
  fs : FS
  result : Except ClientResponseError Unit
  deriving Repr

/-- `download_file(session, url, dest)`: issue one GET for `url`; on
status 200 create `dest`'s parent directories (`os.makedirs` on
`os.path.dirname(dest)`) and write the body at `dest`; otherwise raise a
`ClientResponseError` carrying the status and a message naming the URL and
status, leaving the filesystem untouched.  `respond` stands for
`session.get`. -/
def download_file (respond : String → Response) (url dest : String)
    (fs : FS) : DLOutcome :=
  let response := respond url
  if response.status = HTTP_STATUS_OK then
    let fs1 := makedirs (dirname dest) fs
    ⟨[url], writeFile dest response.body fs1, .ok ()⟩
  else
    ⟨[url], fs, .error
      ⟨response.status,
        "Failed to download " ++ url ++ ", status code: " ++
          toString response.status⟩⟩

/-! ### SHA-256 (`hashlib.sha256`)

Modelled from the FIPS 180-4 algorithm that `hashlib.sha256` implements.
Words are `Nat` reduced modulo `2 ^ 32`. -/

/-- `2 ^ 32`, the word modulus. -/
def M32 : Nat := 4294967296

/-- Right rotation of a 32-bit word. -/
def rotr (n x : Nat) : Nat := ((x >>> n) ||| (x <<< (32 - n))) % M32

/-- Bitwise complement of a 32-bit word. -/
def compl32 (x : Nat) : Nat := x ^^^ (M32 - 1)

/-- SHA-256 `Ch`. -/
def ch (x y z : Nat) : Nat := (x &&& y) ^^^ (compl32 x &&& z)

/-- SHA-256 `Maj`. -/
def maj (x y z : Nat) : Nat := (x &&& y) ^^^ (x &&& z) ^^^ (y &&& z)

/-- SHA-256 `Σ₀`. -/
def bsig0 (x : Nat) : Nat := rotr 2 x ^^^ rotr 13 x ^^^ rotr 22 x

/-- SHA-256 `Σ₁`. -/
def bsig1 (x : Nat) : Nat := rotr 6 x ^^^ rotr 11 x ^^^ rotr 25 x

/-- SHA-256 `σ₀`. -/
def ssig0 (x : Nat) : Nat := rotr 7 x ^^^ rotr 18 x ^^^ (x >>> 3)

/-- SHA-256 `σ₁`. -/
def ssig1 (x : Nat) : Nat := rotr 17 x ^^^ rotr 19 x ^^^ (x >>> 10)

/-- The 64 SHA-256 round constants (FIPS 180-4, written in decimal). -/
def K256 : List Nat :=
  [1116352408, 1899447441, 3049323471,
   3921009573, 961987163, 1508970993,
   2453635748, 2870763221, 3624381080,
   310598401, 607225278, 1426881987,
   1925078388, 2162078206, 2614888103,
   3248222580, 3835390401, 4022224774,
   264347078, 604807628, 770255983,
   1249150122, 1555081692, 1996064986,
   2554220882, 2821834349, 2952996808,
   3210313671, 3336571891, 3584528711,
   113926993, 338241895, 666307205,
   773529912, 1294757372, 1396182291,
   1695183700, 1986661051, 2177026350,
   2456956037, 2730485921, 2820302411,
   3259730800, 3345764771, 3516065817,
   3600352804, 4094571909, 275423344,
   430227734, 506948616, 659060556,
   883997877, 958139571, 1322822218,
   1537002063, 1747873779, 1955562222,
   2024104815, 2227730452, 2361852424,
   2428436474, 2756734187, 3204031479,
   3329325298]

/-- The SHA-256 initial hash value (FIPS 180-4, written in decimal). -/
def H256 : List Nat :=
  [1779033703, 3144134277, 1013904242,
   2773480762, 1359893119, 2600822924,
   528734635, 1541459225]

/-- Split a byte list into chunks of `size` bytes, with fuel for
structural termination; each step consumes at least one byte when `size`
is positive, so `l.length` fuel suffices. -/
def chunksOfAux (size : Nat) : Nat → List Nat → List (List Nat)
  | 0, _ => []
  | _, [] => []
  | fuel + 1, l => l.take size :: chunksOfAux size fuel (l.drop size)

/-- Split a byte list into chunks of `size` bytes (the last may be
shorter). -/
def chunksOf (size : Nat) (l : List Nat) : List (List Nat) :=
  if size = 0 then [] else chunksOfAux size l.length l

/-- Big-endian bytes of `v` in `n` bytes. -/
def beBytes (n v : Nat) : List Nat :=
  (List.range n).map (fun i => (v >>> ((n - 1 - i) * 8)) &&& 255)

/-- SHA-256 padding: append `0x80`, zeros to 56 mod 64, and the 8-byte
big-endian bit length. -/
def padMessage (msg : List Nat) : List Nat :=
  let len := msg.length
  let zeros := (119 - len % 64) % 64
  msg ++ 128 :: List.replicate zeros 0 ++ beBytes 8 (len * 8)

/-- The 16 big-endian 32-bit words of one 64-byte block. -/
def blockWords (block : List Nat) : List Nat :=
  (List.range 16).map (fun i =>
    block.getD (4 * i) 0 * 16777216 + block.getD (4 * i + 1) 0 * 65536 +
      block.getD (4 * i + 2) 0 * 256 + block.getD (4 * i + 3) 0)

/-- Extend the 16 message-schedule words to 64.  `w` holds the words built
so far in reverse order. -/
def extendW : Nat → List Nat → List Nat
  | 0, w => w.reverse
  | n + 1, w =>
    let t := (ssig1 (w.getD 1 0) + w.getD 6 0 + ssig0 (w.getD 14 0) +
      w.getD 15 0) % M32
    extendW n (t :: w)

/-- The full 64-word message schedule of a block. -/
def schedule (block : List Nat) : List Nat :=
  extendW 48 (blockWords block).reverse

/-- One SHA-256 round: state is `[a, b, c, d, e, f, g, h]`, `kw` is
`K[t] + W[t]` packed as a pair. -/
def round256 (st : List Nat) (kw : Nat × Nat) : List Nat :=
  match st with
  | [a, b, c, d, e, f, g, h] =>
    let t1 := (h + bsig1 e + ch e f g + kw.1 + kw.2) % M32
    let t2 := (bsig0 a + maj a b c) % M32
    [(t1 + t2) % M32, a, b, c, (d + t1) % M32, e, f, g]
  | _ => st

/-- Compress one 64-byte block into the running hash. -/
def compress (h : List Nat) (block : List Nat) : List Nat :=
  let w := schedule block
  let st := (K256.zip w).foldl round256 h
  (h.zip st).map (fun p => (p.1 + p.2) % M32)

/-- The eight final 32-bit hash words of a byte message. -/
def sha256Words (msg : List Nat) : List Nat :=
  (chunksOf 64 (padMessage msg)).foldl compress H256

/-- A lowercase hex digit. -/
def hexDigit (n : Nat) : Char :=
  if n < 10 then Char.ofNat (48 + n) else Char.ofNat (87 + n)

/-- Lowercase 8-hex-digit rendering of a 32-bit word. -/
def toHex8 (x : Nat) : String :=
  String.mk ((List.range 8).map (fun i => hexDigit ((x >>> (28 - 4 * i)) &&& 15)))

/-- `hashlib.sha256(msg).hexdigest()`. -/
def sha256hex (msg : List Nat) : String :=
  String.join ((sha256Words msg).map toHex8)

/-! ### `calculate_sha256` -/

/-- `CHUNK_SIZE = 4096`. -/
def CHUNK_SIZE : Nat := 4096

/-- The incremental hash object: `hashlib.sha256()` buffers the
concatenation of all `update` arguments. -/
structure Sha256Ctx where
  buffer : List Nat
  deriving Repr, DecidableEq

/-- `hash_sha256.update(chunk)`. -/
def Sha256Ctx.update (ctx : Sha256Ctx) (chunk : List Nat) : Sha256Ctx :=
  ⟨ctx.buffer ++ chunk⟩

/-- `hash_sha256.hexdigest()`. -/
def Sha256Ctx.hexdigest (ctx : Sha256Ctx) : String :=
  sha256hex ctx.buffer

/-- `calculate_sha256(file_path)`: open the file, read it in
`CHUNK_SIZE`-byte chunks via `read_chunk`, feed each chunk to the
incremental hash, and return the hex digest; fails if the file cannot be
opened. -/
def calculate_sha256 (fs : FS) (file_path : String) : Except String String :=
  match fs.lookup file_path with
  | none => .error ("No such file: " ++ file_path)
  | some data =>
    let chunks := chunksOf CHUNK_SIZE data.bytes
    let ctx := chunks.foldl Sha256Ctx.update ⟨[]⟩
    .ok ctx.hexdigest

/-- The bytes of a string of ASCII characters. -/
def strBytes (s : String) : List Nat :=
  s.toList.map Char.toNat

/-! ### `create_download_tasks` and `get_relative_paths` -/

/-- A download task as built by `create_download_tasks`: the pair of
arguments `(url, dest)` the loop passes to `download_file`. -/
structure DownloadTask where
  url : String
  dest : String
  deriving Repr, DecidableEq

/-- `create_download_tasks(session, file_paths, temp_dir, base_url)`: for
each path, in order, append a task with
`dest = os.path.join(temp_dir, file_path)` and
`url = os.path.join(base_url, file_path)`. -/
def create_download_tasks (file_paths : List String)
    (temp_dir base_url : String) : List DownloadTask :=
  file_paths.foldl
    (fun download_tasks file_path =>
      download_tasks ++ [⟨pjoin base_url file_path, pjoin temp_dir file_path⟩])
    []

/-- `get_relative_paths(root, files, temp_dir)`: for each filename, in
order, append `os.path.relpath(os.path.join(root, filename), temp_dir)`.
The working directory `cwd` parameterizes `relpath`'s `abspath`. -/
def get_relative_paths (cwd root : String) (files : List String)
    (temp_dir : String) : List String :=
  files.foldl
    (fun paths filename => paths ++ [relpath cwd (pjoin root filename) temp_dir])
    []

/-! ### `asyncio.gather` result semantics

`asyncio.gather(*tasks)` with `return_exceptions=False` completes with the
list of results when every task succeeds, and otherwise with the first
exception raised, in completion order.  The input list below is the task
outcomes in completion order. -/

/-- Fail-fast join of task outcomes, first failure surfaced. -/
def gather {ε α : Type} : List (Except ε α) → Except ε (List α)
  | [] => .ok []
  | .error e :: _ => .error e
  | .ok a :: rest =>
    match gather rest with
    | .ok others => .ok (a :: others)
    | .error e => .error e

/-! ### The batch run and the digest pass of `main` -/

/-- Run a list of download tasks against the filesystem, stopping at the
first failure (a linearization of the gathered batch). -/
def run_downloads (respond : String → Response) (tasks : List DownloadTask)
    (fs : FS) : Except ClientResponseError FS :=
  match tasks with
  | [] => .ok fs
  | t :: rest =>
    let out := download_file respond t.url t.dest fs
    match out.result with
    | .ok _ => run_downloads respond rest out.fs
    | .error e => .error e

/-- The final loop of `main`: walk the destination tree and call
`calculate_sha256` once per file found, pairing each path with its
digest. -/
def digest_pass (fs : FS) : List (String × Except String String) :=
  fs.files.map (fun pd => (pd.1, calculate_sha256 fs pd.1))

/-! ### The semaphore discipline of `download_file`

`SEM = asyncio.Semaphore(3)` is shared by every `download_file` task of a
batch; the whole body of `download_file` — the GET plus the file write —
runs inside `async with SEM`, which acquires one unit on entry and
releases it on exit, whether the body returns or raises.  The transition
system below is the shallow embedding of that discipline: each task is
`notStarted`, `waiting` (suspended in the semaphore acquire), `critical`
(inside the `async with` body), `done`, or `failed` (body raised). -/

/-- Capacity of `SEM` in the source: `asyncio.Semaphore(3)`. -/
def SEM_CAPACITY : Nat := 3

/-- The phase of one download task. -/
inductive Phase where
  | notStarted
  | waiting
  | critical
  | done
  | failed
  deriving Repr, DecidableEq

/-- A batch state: the phase of each task and the semaphore's free
units. -/
structure SemState where
  tasks : List Phase
  avail : Nat
  deriving Repr, DecidableEq

/-- The initial state of a batch of `n` gathered tasks: none started, all
`SEM_CAPACITY` units free. -/
def initState (n : Nat) : SemState :=
  ⟨List.replicate n Phase.notStarted, SEM_CAPACITY⟩

/-- Interleaving steps of a batch: a task starts and suspends on the
acquire; acquires a unit when one is free and enters the critical section;
or leaves the critical section (returning or raising), releasing its
unit. -/
inductive Step : SemState → SemState → Prop where
  | start (s : SemState) (i : Nat) :
      s.tasks.getD i Phase.done = Phase.notStarted →
      Step s ⟨s.tasks.set i Phase.waiting, s.avail⟩
  | acquire (s : SemState) (i : Nat) :
      s.tasks.getD i Phase.done = Phase.waiting → 0 < s.avail →
      Step s ⟨s.tasks.set i Phase.critical, s.avail - 1⟩
  | finishOk (s : SemState) (i : Nat) :
      s.tasks.getD i Phase.done = Phase.critical →
      Step s ⟨s.tasks.set i Phase.done, s.avail + 1⟩
  | finishErr (s : SemState) (i : Nat) :
      s.tasks.getD i Phase.done = Phase.critical →
      Step s ⟨s.tasks.set i Phase.failed, s.avail + 1⟩

/-- States reachable during a batch of `n` tasks. -/
inductive Reachable (n : Nat) : SemState → Prop where
  | init : Reachable n (initState n)
  | step {s s' : SemState} : Reachable n s → Step s s' → Reachable n s'

/-- The number of tasks currently inside the critical section. -/
def countCritical (ts : List Phase) : Nat :=
  ts.countP (fun p => p = Phase.critical)

/-! ## Helper lemmas -/

/-- A `foldl` that appends one image per element is a `map`. -/
theorem foldl_append_singleton {α β : Type} (f : α → β) (l : List α)
    (acc : List β) :
    l.foldl (fun acc x => acc ++ [f x]) acc = acc ++ l.map f := by
  induction l generalizing acc with
  | nil => simp
  | cons x xs ih => simp [ih]

/-- `create_download_tasks` is the map pairing each path with its joined
URL and destination. -/
theorem create_download_tasks_eq_map (file_paths : List String)
    (temp_dir base_url : String) :
    create_download_tasks file_paths temp_dir base_url =
      file_paths.map
        (fun p => DownloadTask.mk (pjoin base_url p) (pjoin temp_dir p)) := by
  simpa using foldl_append_singleton
    (fun p => DownloadTask.mk (pjoin base_url p) (pjoin temp_dir p))
    file_paths []

/-- `get_relative_paths` is the map of `relpath` over the joined paths. -/
theorem get_relative_paths_eq_map (cwd root : String) (files : List String)
    (temp_dir : String) :
    get_relative_paths cwd root files temp_dir =
      files.map (fun filename => relpath cwd (pjoin root filename) temp_dir) := by
  simpa using foldl_append_singleton
    (fun filename => relpath cwd (pjoin root filename) temp_dir) files []

/-- Setting an in-range position exchanges the old element's contribution
to `countP` for the new one's. -/
theorem countP_set_exchange (pred : Phase → Bool) (ts : List Phase) (i : Nat)
    (p : Phase) (h : i < ts.length) :
    (ts.set i p).countP pred +
        (if pred (ts.getD i Phase.done) then 1 else 0) =
      ts.countP pred + (if pred p then 1 else 0) := by
  induction ts generalizing i with
  | nil => simp at h
  | cons a ts ih =>
    cases i with
    | zero =>
      simp only [List.set_cons_zero, List.countP_cons, List.getD_cons_zero]
      omega
    | succ j =>
      have hj : j < ts.length := by simpa using h
      have hih := ih j hj
      simp only [List.set_cons_succ, List.countP_cons, List.getD_cons_succ]
      omega

/-- A `getD` read that differs from the default is in range. -/
theorem getD_ne_default_lt (ts : List Phase) (i : Nat) (d q : Phase)
    (hq : ts.getD i d = q) (hne : q ≠ d) : i < ts.length := by
  by_contra hge
  have hle : ts.length ≤ i := Nat.le_of_not_lt hge
  have hd : ts.getD i d = d := by
    unfold List.getD
    rw [List.get?_eq_none.mpr hle]
    rfl
  exact hne (hq.symm.trans hd)

/-- No task of the all-`notStarted` initial list is critical. -/
theorem countCritical_replicate (n : Nat) :
    countCritical (List.replicate n Phase.notStarted) = 0 := by
  induction n with
  | zero => rfl
  | succ m ih =>
    unfold countCritical at ih ⊢
    simp [List.replicate_succ, List.countP_cons, ih]

/-- One step preserves unit accounting. -/
theorem step_unit_accounting {s s' : SemState} (hstep : Step s s')
    (ih : countCritical s.tasks + s.avail = SEM_CAPACITY) :
    countCritical s'.tasks + s'.avail = SEM_CAPACITY := by
  cases hstep with
  | start i hi =>
    have hlt := getD_ne_default_lt s.tasks i Phase.done Phase.notStarted hi
      (by simp)
    have hx := countP_set_exchange (fun p => p = Phase.critical) s.tasks i
      Phase.waiting hlt
    rw [hi] at hx
    simp only [countCritical] at ih ⊢
    simp at hx
    omega
  | acquire i hi hpos =>
    have hlt := getD_ne_default_lt s.tasks i Phase.done Phase.waiting hi
      (by simp)
    have hx := countP_set_exchange (fun p => p = Phase.critical) s.tasks i
      Phase.critical hlt
    rw [hi] at hx
    simp only [countCritical] at ih ⊢
    simp at hx
    omega
  | finishOk i hi =>
    have hlt := getD_ne_default_lt s.tasks i Phase.done Phase.critical hi
      (by simp)
    have hx := countP_set_exchange (fun p => p = Phase.critical) s.tasks i
      Phase.done hlt
    rw [hi] at hx
    simp only [countCritical] at ih ⊢
    simp at hx
    omega
  | finishErr i hi =>
    have hlt := getD_ne_default_lt s.tasks i Phase.done Phase.critical hi
      (by simp)
    have hx := countP_set_exchange (fun p => p = Phase.critical) s.tasks i
      Phase.failed hlt
    rw [hi] at hx
    simp only [countCritical] at ih ⊢
    simp at hx
    omega

/-- Unit accounting: in every reachable state the tasks inside the
critical section and the semaphore's free units together account for
exactly the capacity — every task that left the critical section, by
returning or raising, has released its unit. -/
theorem reachable_unit_accounting {n : Nat} {s : SemState}
    (h : Reachable n s) :
    countCritical s.tasks + s.avail = SEM_CAPACITY := by
  induction h with
  | init => simp [initState, countCritical_replicate]
  | step _ hstep ih => exact step_unit_accounting hstep ih

/-- The in-place update of `writeFile` keeps the key list. -/
theorem map_fst_update (files : List (String × FileData)) (dest : String)
    (bytes : List Nat) :
    (files.map
        (fun pd => if pd.1 = dest then (dest, FileData.mk bytes 0 0) else pd)).map
        Prod.fst =
      files.map Prod.fst := by
  induction files with
  | nil => rfl
  | cons pd rest ih =>
    by_cases h : pd.1 = dest
    · simp [h, ih]
    · simp [h, ih]

/-- After the in-place update, looking the destination up finds the new
data. -/
theorem find?_update_self (files : List (String × FileData)) (dest : String)
    (bytes : List Nat) (hmem : dest ∈ files.map Prod.fst) :
    (files.map
        (fun pd => if pd.1 = dest then (dest, FileData.mk bytes 0 0) else pd)).find?
        (fun pd => pd.1 = dest) =
      some (dest, FileData.mk bytes 0 0) := by
  induction files with
  | nil => simp at hmem
  | cons pd rest ih =>
    by_cases h : pd.1 = dest
    · simp [h, List.find?_cons_of_pos]
    · have hmem' : dest ∈ rest.map Prod.fst := by
        simp only [List.map_cons, List.mem_cons] at hmem
        rcases hmem with heq | hrest
        · exact absurd heq.symm h
        · exact hrest
      simp only [List.map_cons, if_neg h]
      rw [List.find?_cons_of_neg _ (by simpa using h)]
      exact ih hmem'

/-- Appending a fresh file makes it findable. -/
theorem find?_append_self (files : List (String × FileData)) (dest : String)
    (bytes : List Nat) (hnot : dest ∉ files.map Prod.fst) :
    (files ++ [(dest, FileData.mk bytes 0 0)]).find? (fun pd => pd.1 = dest) =
      some (dest, FileData.mk bytes 0 0) := by
  induction files with
  | nil => simp [List.find?_cons_of_pos]
  | cons pd rest ih =>
    have h : pd.1 ≠ dest := by
      intro heq
      exact hnot (by simp [heq.symm])
    have hnot' : dest ∉ rest.map Prod.fst := by
      intro hmem
      exact hnot (by simp [hmem])
    rw [List.cons_append, List.find?_cons_of_neg _ (by simpa using h)]
    exact ih hnot'

/-- `writeFile` stores the body at the destination: the file found there
afterwards holds exactly the written bytes. -/
theorem lookup_writeFile_self (fs : FS) (dest : String) (bytes : List Nat) :
    (writeFile dest bytes fs).lookup dest = some (FileData.mk bytes 0 0) := by
  unfold writeFile FS.lookup
  by_cases hmem : dest ∈ fs.files.map Prod.fst
  · rw [if_pos hmem]
    simp [find?_update_self fs.files dest bytes hmem]
  · rw [if_neg hmem]
    simp [find?_append_self fs.files dest bytes hmem]

/-- The in-place update of `writeFile` leaves other keys' entries to be
found as before. -/
theorem find?_update_other (files : List (String × FileData)) (dest p : String)
    (bytes : List Nat) (hne : p ≠ dest) :
    (files.map
        (fun pd => if pd.1 = dest then (dest, FileData.mk bytes 0 0) else pd)).find?
        (fun pd => pd.1 = p) =
      files.find? (fun pd => pd.1 = p) := by
  induction files with
  | nil => rfl
  | cons pd rest ih =>
    by_cases h : pd.1 = dest
    · have hpd : ¬ (pd.1 = p) := fun hh => hne (hh.symm.trans h)
      simp only [List.map_cons, if_pos h]
      rw [List.find?_cons_of_neg _ (by simpa using fun hh => hne hh.symm),
        List.find?_cons_of_neg _ (by simpa using hpd)]
      exact ih
    · simp only [List.map_cons, if_neg h]
      by_cases hp : pd.1 = p
      · rw [List.find?_cons_of_pos _ (by simpa using hp),
          List.find?_cons_of_pos _ (by simpa using hp)]
      · rw [List.find?_cons_of_neg _ (by simpa using hp),
          List.find?_cons_of_neg _ (by simpa using hp)]
        exact ih

/-- `writeFile` leaves every other path's file unchanged. -/
theorem lookup_writeFile_other (fs : FS) (dest p : String) (bytes : List Nat)
    (hne : p ≠ dest) :
    (writeFile dest bytes fs).lookup p = fs.lookup p := by
  unfold writeFile FS.lookup
  by_cases hmem : dest ∈ fs.files.map Prod.fst
  · rw [if_pos hmem]
    simp only
    rw [find?_update_other fs.files dest p bytes hne]
  · rw [if_neg hmem]
    simp only
    rw [List.find?_append]
    have hlast : ([(dest, FileData.mk bytes 0 0)].find? (fun pd => pd.1 = p)) =
        none := by
      rw [List.find?_cons_of_neg _ (by simpa using fun hh => hne hh.symm)]
      rfl
    rw [hlast]
    cases fs.files.find? (fun pd => pd.1 = p) <;> rfl

/-- `writeFile` to a present key keeps the key list. -/
theorem writeFile_keys_of_mem (fs : FS) (dest : String) (bytes : List Nat)
    (h : dest ∈ fs.files.map Prod.fst) :
    (writeFile dest bytes fs).files.map Prod.fst = fs.files.map Prod.fst := by
  unfold writeFile
  rw [if_pos h]
  exact map_fst_update fs.files dest bytes

/-- `makedirs` only adds directories. -/
theorem makedirs_files (name : String) (fs : FS) :
    (makedirs name fs).files = fs.files := rfl

/-- A batch whose responses are all `200` runs to completion and leaves
the key list of the filesystem unchanged, provided every destination
already exists (as in `main`, where the walked tree supplies the
destinations). -/
theorem run_downloads_all_ok (respond : String → Response)
    (tasks : List DownloadTask) (fs : FS)
    (hok : ∀ t ∈ tasks, (respond t.url).status = HTTP_STATUS_OK)
    (hdest : ∀ t ∈ tasks, t.dest ∈ fs.files.map Prod.fst) :
    ∃ fs', run_downloads respond tasks fs = .ok fs' ∧
      fs'.files.map Prod.fst = fs.files.map Prod.fst := by
  induction tasks generalizing fs with
  | nil => exact ⟨fs, rfl, rfl⟩
  | cons t rest ih =>
    have hok_t : (respond t.url).status = HTTP_STATUS_OK :=
      hok t (List.mem_cons_self t rest)
    have hmem_t : t.dest ∈ fs.files.map Prod.fst :=
      hdest t (List.mem_cons_self t rest)
    have hkeys1 :
        (writeFile t.dest (respond t.url).body
            (makedirs (dirname t.dest) fs)).files.map Prod.fst =
          fs.files.map Prod.fst := by
      rw [writeFile_keys_of_mem _ _ _ (by rw [makedirs_files]; exact hmem_t)]
      rw [makedirs_files]
    obtain ⟨fs', hrun, hk⟩ := ih
      (writeFile t.dest (respond t.url).body (makedirs (dirname t.dest) fs))
      (fun t' ht' => hok t' (List.mem_cons_of_mem t ht'))
      (fun t' ht' => by rw [hkeys1]; exact hdest t' (List.mem_cons_of_mem t ht'))
    refine ⟨fs', ?_, hk.trans hkeys1⟩
    unfold run_downloads download_file
    rw [if_pos hok_t]
    exact hrun

/-- `writeFile` never touches the directory set. -/
theorem writeFile_dirs (dest : String) (bytes : List Nat) (fs : FS) :
    (writeFile dest bytes fs).dirs = fs.dirs := by
  unfold writeFile
  split <;> rfl

/-- `makedirs` never touches the files. -/
theorem lookup_makedirs (name p : String) (fs : FS) :
    (makedirs name fs).lookup p = fs.lookup p := rfl

/-! ## Claims -/

/-- C1: At every point during a batch fetch — in every state reachable by
interleaving any number `n` of gathered `download_file` tasks — the number
of tasks concurrently inside the network-call-plus-file-write critical
section of `download_file` is at most `SEM_CAPACITY = 3`, the capacity of
the shared semaphore `SEM`. -/
theorem semaphore_bounds_concurrent_critical (n : Nat) (s : SemState)
    (h : Reachable n s) : countCritical s.tasks ≤ SEM_CAPACITY := by
  have hacc := reachable_unit_accounting h
  omega

/-- Witness for C1: a batch of four tasks reaches a state with three tasks
inside the critical section, and the bound holds there. -/
theorem semaphore_bounds_concurrent_critical_witness :
    countCritical (SemState.mk
      [Phase.critical, Phase.critical, Phase.critical, Phase.notStarted]
      0).tasks ≤ SEM_CAPACITY := by
  have h0 : Reachable 4 (initState 4) := Reachable.init
  have h1 := Reachable.step h0 (Step.start (initState 4) 0 (by decide))
  have h2 := Reachable.step h1 (Step.acquire _ 0 (by decide) (by decide))
  have h3 := Reachable.step h2 (Step.start _ 1 (by decide))
  have h4 := Reachable.step h3 (Step.acquire _ 1 (by decide) (by decide))
  have h5 := Reachable.step h4 (Step.start _ 2 (by decide))
  have h6 := Reachable.step h5 (Step.acquire _ 2 (by decide) (by decide))
  exact semaphore_bounds_concurrent_critical 4 _ h6

/-- C2: a `download_file` call whose GET returns a status other than 200
issues exactly one request (so no retry), raises a `ClientResponseError`
carrying the requested URL (inside its message) and the observed status
code, and writes no file — the filesystem is returned unchanged.  Its exit
from the `async with SEM` block is a `finishErr` step, which returns the
held unit to the semaphore. -/
theorem download_file_non_ok (respond : String → Response) (url dest : String)
    (fs : FS) (h : (respond url).status ≠ HTTP_STATUS_OK) :
    (download_file respond url dest fs).trace = [url] ∧
    (download_file respond url dest fs).fs = fs ∧
    (download_file respond url dest fs).result = Except.error
      (ClientResponseError.mk (respond url).status
        ("Failed to download " ++ url ++ ", status code: " ++
          toString (respond url).status)) ∧
    (∀ s : SemState, ∀ i : Nat,
      s.tasks.getD i Phase.done = Phase.critical →
      Step s (SemState.mk (s.tasks.set i Phase.failed) (s.avail + 1))) := by
  have hd : download_file respond url dest fs =
      ⟨[url], fs, Except.error
        (ClientResponseError.mk (respond url).status
          ("Failed to download " ++ url ++ ", status code: " ++
            toString (respond url).status))⟩ := by
    simp only [download_file]
    rw [if_neg h]
  rw [hd]
  exact ⟨rfl, rfl, rfl, fun s i hi => Step.finishErr s i hi⟩

/-- Witness for C2: a 404 response produces the error carrying the URL and
the status, touches no file, and sends exactly one request. -/
theorem download_file_non_ok_witness :
    (download_file (fun _ => Response.mk 404 [])
        "https://example.com/testfile.txt" "/tmp/dest/testfile.txt"
        (FS.mk [] [])).fs = FS.mk [] [] ∧
    (download_file (fun _ => Response.mk 404 [])
        "https://example.com/testfile.txt" "/tmp/dest/testfile.txt"
        (FS.mk [] [])).result = Except.error
      (ClientResponseError.mk 404
        ("Failed to download https://example.com/testfile.txt, " ++
          "status code: 404")) := by
  have hw := download_file_non_ok (fun _ => Response.mk 404 [])
    "https://example.com/testfile.txt" "/tmp/dest/testfile.txt"
    (FS.mk [] []) (by decide)
  refine ⟨hw.2.1, ?_⟩
  rw [hw.2.2.1]
  rfl

/-- C4: a `download_file` call whose GET returns status 200 records every
parent directory of the destination (the `os.makedirs` chain of
`dirname dest`) as existing, writes the entire response body at the
destination path — overwriting whatever file was previously there, so that
afterwards the file found at the destination holds exactly the response
body — and leaves every other path unchanged. -/
theorem download_file_ok (respond : String → Response) (url dest : String)
    (fs : FS) (h : (respond url).status = HTTP_STATUS_OK) :
    (download_file respond url dest fs).result = Except.ok () ∧
    (∀ d ∈ mkdirChain (dirname dest) ((dirname dest).length + 1),
      d ∈ (download_file respond url dest fs).fs.dirs) ∧
    (download_file respond url dest fs).fs.lookup dest =
      some (FileData.mk (respond url).body 0 0) ∧
    (∀ p, p ≠ dest →
      (download_file respond url dest fs).fs.lookup p = fs.lookup p) := by
  have hd : download_file respond url dest fs =
      ⟨[url], writeFile dest (respond url).body (makedirs (dirname dest) fs),
        Except.ok ()⟩ := by
    simp only [download_file]
    rw [if_pos h]
  rw [hd]
  refine ⟨rfl, ?_, ?_, ?_⟩
  · intro d hmem
    rw [writeFile_dirs]
    unfold makedirs
    exact List.mem_append_left _ hmem
  · exact lookup_writeFile_self _ dest (respond url).body
  · intro p hp
    rw [lookup_writeFile_other _ dest p _ hp, lookup_makedirs]

/-- Witness for C4: a 200 response whose body is `[9, 9]` overwrites the
stale file previously at the destination, and afterwards the destination
holds exactly the body. -/
theorem download_file_ok_witness :
    (download_file (fun _ => Response.mk 200 [9, 9])
        "https://example.com/f.txt" "/tmp/dest/f.txt"
        (FS.mk [("/tmp/dest/f.txt", FileData.mk [1, 2, 3] 4 5)] [])).fs.lookup
        "/tmp/dest/f.txt" =
      some (FileData.mk [9, 9] 0 0) :=
  (download_file_ok (fun _ => Response.mk 200 [9, 9])
    "https://example.com/f.txt" "/tmp/dest/f.txt"
    (FS.mk [("/tmp/dest/f.txt", FileData.mk [1, 2, 3] 4 5)] [])
    (by decide)).2.2.1

/-- If `gather` succeeds, every gathered outcome was a success. -/
theorem gather_ok_mem {ε α : Type} (outcomes : List (Except ε α))
    (l : List α) (h : gather outcomes = Except.ok l) :
    ∀ x ∈ outcomes, ∃ a, x = Except.ok a := by
  induction outcomes generalizing l with
  | nil =>
    intro x hx
    simp at hx
  | cons x rest ih =>
    intro y hy
    match x with
    | Except.error e => simp [gather] at h
    | Except.ok a =>
      rcases List.mem_cons.mp hy with hya | hyr
      · exact ⟨a, hya⟩
      · simp only [gather] at h
        cases hg : gather rest with
        | ok others => exact ih others hg y hyr
        | error e =>
          rw [hg] at h
          simp at h

/-- C3: for every list of task outcomes in completion order, `gather` — the
join point `asyncio.gather(*download_tasks)` of `main` — fails whenever any
individual task failed, however many other tasks succeeded, and the error
it surfaces is the first failure encountered: the failure preceded only by
successes. -/
theorem gather_fail_fast {ε α : Type} (outcomes : List (Except ε α)) :
    (∀ e : ε, Except.error e ∈ outcomes →
      ∀ l : List α, gather outcomes ≠ Except.ok l) ∧
    (∀ pre (e : ε) post, outcomes = pre ++ Except.error e :: post →
      (∀ x ∈ pre, ∃ a, x = Except.ok a) →
      gather outcomes = Except.error e) := by
  constructor
  · intro e he l hok
    obtain ⟨a, ha⟩ := gather_ok_mem outcomes l hok (Except.error e) he
    exact Except.noConfusion ha
  · intro pre e post heq hok
    subst heq
    induction pre with
    | nil => rfl
    | cons x xs ih =>
      obtain ⟨a, ha⟩ := hok x (List.mem_cons_self x xs)
      subst ha
      have hrec := ih (fun y hy => hok y (List.mem_cons_of_mem _ hy))
      rw [List.cons_append]
      simp only [gather]
      rw [hrec]

/-- Witness for C3: one failed download among successes makes the batch
result that failure, not a success. -/
theorem gather_fail_fast_witness :
    gather [Except.ok 1, Except.error "boom", Except.ok 2] =
      Except.error "boom" :=
  (gather_fail_fast [Except.ok 1, Except.error "boom", Except.ok 2]).2
    [Except.ok 1] "boom" [Except.ok 2] rfl
    (fun x hx => by
      rcases List.mem_cons.mp hx with h1 | h1
      · exact ⟨1, h1⟩
      · simp at h1)

/-- The file `test_calculate_sha256` hashes: its contents are the bytes of
the 12-character string `"test content"`. -/
def testContentFS : FS :=
  FS.mk [("/tmp/testfile", FileData.mk (strBytes "test content") 0 0)] []

set_option maxRecDepth 100000 in
/-- Counterexample for C5: `calculate_sha256` on a file holding
`"test content"` does not return the spec's 63-character hex string. -/
theorem calculate_sha256_spec_digest_false :
    calculate_sha256 testContentFS "/tmp/testfile" ≠
      Except.ok
        "6ae8a75555209fd6c44157c0aed8016e763ff435a19cf186f76863140143ff6" := by
  intro h
  have hreal : calculate_sha256 testContentFS "/tmp/testfile" =
      Except.ok
        "6ae8a75555209fd6c44157c0aed8016e763ff435a19cf186f76863140143ff72" :=
    rfl
  rw [hreal] at h
  have hs := Except.ok.inj h
  exact absurd hs (by decide)

set_option maxRecDepth 100000 in
/-- C5 (amended): `calculate_sha256` applied to a file whose contents are
the 12 bytes of `"test content"` returns exactly the 64-character hex
digest `6ae8a75555209fd6c44157c0aed8016e763ff435a19cf186f76863140143ff72`. -/
theorem calculate_sha256_test_content :
    (strBytes "test content").length = 12 ∧
    calculate_sha256 testContentFS "/tmp/testfile" =
      Except.ok
        "6ae8a75555209fd6c44157c0aed8016e763ff435a19cf186f76863140143ff72" :=
  ⟨rfl, rfl⟩

/-- `getD` through a `map`, at an in-range index. -/
theorem getD_map_lt {α β : Type} (f : α → β) (l : List α) (i : Nat)
    (d : α) (d2 : β) (h : i < l.length) :
    (l.map f).getD i d2 = f (l.getD i d) := by
  induction l generalizing i with
  | nil => simp at h
  | cons x xs ih =>
    cases i with
    | zero => rfl
    | succ j =>
      have hj : j < xs.length := by simpa using h
      simpa using ih j hj

/-- C6: a batch over `file_paths` whose destination root holds exactly the
files at the joined destination paths (as `main` arranges: the walked tree
supplies precisely the submitted relative paths), and whose downloads all
return 200, runs to a success, and the digest pass then produces exactly
one digest per submitted path. -/
theorem batch_success_digest_count (respond : String → Response)
    (file_paths : List String) (temp_dir base_url : String) (fs0 : FS)
    (hkeys : fs0.files.map Prod.fst =
      file_paths.map (fun p => pjoin temp_dir p))
    (hok : ∀ url, (respond url).status = HTTP_STATUS_OK) :
    ∃ fs', run_downloads respond
        (create_download_tasks file_paths temp_dir base_url) fs0 =
          Except.ok fs' ∧
      (digest_pass fs').length = file_paths.length := by
  have hdest : ∀ t ∈ create_download_tasks file_paths temp_dir base_url,
      t.dest ∈ fs0.files.map Prod.fst := by
    intro t ht
    rw [create_download_tasks_eq_map] at ht
    obtain ⟨p, hp, hpt⟩ := List.mem_map.mp ht
    rw [hkeys, ← hpt]
    exact List.mem_map_of_mem _ hp
  obtain ⟨fs', hrun, hk⟩ := run_downloads_all_ok respond _ fs0
    (fun t _ => hok t.url) hdest
  refine ⟨fs', hrun, ?_⟩
  have hlen1 : (digest_pass fs').length = fs'.files.length := by
    unfold digest_pass
    simp
  have hlen2 : fs'.files.length = fs0.files.length := by
    have hc := congrArg List.length hk
    simpa using hc
  have hlen3 : fs0.files.length = file_paths.length := by
    have hc := congrArg List.length hkeys
    simpa using hc
  omega

/-- Witness for C6: two submitted paths, both downloads return 200, and
the digest pass produces exactly two digests. -/
theorem batch_success_digest_count_witness :
    (FS.mk [("/tmp/d/file1.txt", FileData.mk [] 0 0),
        ("/tmp/d/file2.txt", FileData.mk [] 0 0)] []).files.map Prod.fst =
      (["file1.txt", "file2.txt"] : List String).map
        (fun p => pjoin "/tmp/d" p) ∧
    ∃ fs', run_downloads (fun _ => Response.mk 200 [7])
        (create_download_tasks ["file1.txt", "file2.txt"] "/tmp/d"
          "https://example.com")
        (FS.mk [("/tmp/d/file1.txt", FileData.mk [] 0 0),
          ("/tmp/d/file2.txt", FileData.mk [] 0 0)] []) = Except.ok fs' ∧
      (digest_pass fs').length =
        (["file1.txt", "file2.txt"] : List String).length :=
  ⟨by decide,
    batch_success_digest_count (fun _ => Response.mk 200 [7])
      ["file1.txt", "file2.txt"] "/tmp/d" "https://example.com"
      (FS.mk [("/tmp/d/file1.txt", FileData.mk [] 0 0),
        ("/tmp/d/file2.txt", FileData.mk [] 0 0)] [])
      (by decide) (fun _ => rfl)⟩

/-- C7: `create_download_tasks` builds exactly one task per path, in list
order, with URL `os.path.join(base_url, path)` and destination
`os.path.join(temp_dir, path)`; for the paths `file1.txt`, `file2.txt`,
base URL `base` and root `root` it yields exactly the two tasks with URLs
`base/file1.txt`, `base/file2.txt` and destinations `root/file1.txt`,
`root/file2.txt`. -/
theorem create_download_tasks_spec (file_paths : List String)
    (temp_dir base_url : String) :
    (create_download_tasks file_paths temp_dir base_url).length =
      file_paths.length ∧
    (∀ i, i < file_paths.length →
      (create_download_tasks file_paths temp_dir base_url).getD i
          (DownloadTask.mk "" "") =
        DownloadTask.mk (pjoin base_url (file_paths.getD i ""))
          (pjoin temp_dir (file_paths.getD i ""))) ∧
    create_download_tasks ["file1.txt", "file2.txt"] "root" "base" =
      [DownloadTask.mk "base/file1.txt" "root/file1.txt",
       DownloadTask.mk "base/file2.txt" "root/file2.txt"] := by
  refine ⟨?_, ?_, by decide⟩
  · rw [create_download_tasks_eq_map]
    simp
  · intro i hi
    rw [create_download_tasks_eq_map]
    exact getD_map_lt _ file_paths i "" _ hi

/-- Witness for C7: the first task of the two-path batch. -/
theorem create_download_tasks_spec_witness :
    0 < (["file1.txt", "file2.txt"] : List String).length ∧
    (create_download_tasks ["file1.txt", "file2.txt"] "root" "base").getD 0
        (DownloadTask.mk "" "") =
      DownloadTask.mk (pjoin "base" "file1.txt") (pjoin "root" "file1.txt") :=
  ⟨by decide,
    (create_download_tasks_spec ["file1.txt", "file2.txt"] "root" "base").2.1
      0 (by decide)⟩

/-- C8: the digest is a deterministic function of file contents only: two
files with identical bytes yield identical digest strings, whatever their
paths, names, or metadata (`mtime`, `perms`). -/
theorem calculate_sha256_content_only (fs1 fs2 : FS) (p1 p2 : String)
    (d1 d2 : FileData) (h1 : fs1.lookup p1 = some d1)
    (h2 : fs2.lookup p2 = some d2) (hb : d1.bytes = d2.bytes) :
    calculate_sha256 fs1 p1 = calculate_sha256 fs2 p2 := by
  unfold calculate_sha256
  rw [h1, h2]
  simp only
  rw [hb]

/-- Witness for C8: files at different paths with different metadata but
identical bytes digest identically. -/
theorem calculate_sha256_content_only_witness :
    calculate_sha256
        (FS.mk [("/a/x.bin", FileData.mk [1, 2, 3] 4 5)] []) "/a/x.bin" =
      calculate_sha256
        (FS.mk [("/b/y.bin", FileData.mk [1, 2, 3] 6 7)] []) "/b/y.bin" :=
  calculate_sha256_content_only
    (FS.mk [("/a/x.bin", FileData.mk [1, 2, 3] 4 5)] [])
    (FS.mk [("/b/y.bin", FileData.mk [1, 2, 3] 6 7)] [])
    "/a/x.bin" "/b/y.bin" (FileData.mk [1, 2, 3] 4 5)
    (FileData.mk [1, 2, 3] 6 7) rfl rfl rfl

/-- C9: the no-root-escape precondition on relative paths is enforced
nowhere: for the absolute input path `/etc/passwd`, `os.path.join`
discards the preceding component, so the computed destination equals the
input path itself and lies outside the destination root, and the
constructed URL does not start with the base URL either. -/
theorem root_escape_not_prevented :
    create_download_tasks ["/etc/passwd"] "/tmp/dest"
        "https://example.com/files" =
      [DownloadTask.mk "/etc/passwd" "/etc/passwd"] ∧
    sStartsWith "/etc/passwd" "/tmp/dest" = false ∧
    sStartsWith "/etc/passwd" "https://example.com/files" = false := by
  exact ⟨by decide, by decide, by decide⟩

/-- C10: `get_relative_paths` returns one path per input filename, in
order, the `i`-th being `os.path.relpath(os.path.join(root, files[i]),
temp_dir)`. -/
theorem get_relative_paths_spec (cwd root : String) (files : List String)
    (temp_dir : String) :
    (get_relative_paths cwd root files temp_dir).length = files.length ∧
    (∀ i, i < files.length →
      (get_relative_paths cwd root files temp_dir).getD i "" =
        relpath cwd (pjoin root (files.getD i "")) temp_dir) := by
  constructor
  · rw [get_relative_paths_eq_map]
    simp
  · intro i hi
    rw [get_relative_paths_eq_map]
    exact getD_map_lt _ files i "" "" hi

/-- Witness for C10: the first of two walked filenames. -/
theorem get_relative_paths_spec_witness :
    0 < (["file1.txt", "file2.txt"] : List String).length ∧
    (get_relative_paths "/" "/tmp/x" ["file1.txt", "file2.txt"]
        "/tmp/x").getD 0 "" =
      relpath "/" (pjoin "/tmp/x" "file1.txt") "/tmp/x" :=
  ⟨by decide,
    (get_relative_paths_spec "/" "/tmp/x" ["file1.txt", "file2.txt"]
      "/tmp/x").2 0 (by decide)⟩

end Downloader
